import Mathlib

/-!
Verification of the temporal-dsl compile-and-interpret layer.

This file gives a shallow embedding, in Lean 4, of the parts of the
temporal-dsl Go repository that the checked properties are about:

* the four-slot execution `State` and its `AddOutput` export step
  (`pkg/utils/state.go`);
* the runtime-expression entry points `EvaluateString` and
  `CheckIfStatement` (`pkg/utils/runtime_expressions.go`,
  `pkg/utils/workflow.go`), with the third-party jq engine kept abstract
  as a parameter;
* the sequence executor `iterateTasks` of the `do` task builder
  (`pkg/dsl/tasks/task_builder_do.go`);
* the `switch` task builder (`pkg/dsl/tasks/task_builder_switch.go`);
* the status-code handling of the `call http` activity
  (`pkg/dsl/tasks/task_builder_call_http.go`);
* the schedule reconciler (`pkg/dsl/schedules.go`), with the engine's
  schedule store modelled as an explicit list;
* the search-attribute coercion layer (`metadata.go`, provided as an
  unnamed source file);
* the registration loop of the `listen` task builder
  (`pkg/dsl/tasks/task_builder_listen.go`).

Go `map[string]any` values are modelled as association lists over a
JSON-like `Value` type; a Go `nil` interface value is `Value.null`.
Functions that can fail return `Except Err`; a Go runtime panic (from a
failed type assertion) is modelled by an explicit result constructor.
-/

/-- Left brace character, written via its code point. -/
def lbrace : Char := Char.ofNat 123

/-- Right brace character, written via its code point. -/
def rbrace : Char := Char.ofNat 125

/-- JSON-like dynamic value, modelling the Go `any` values that flow
through the interpreter.  `Value.null` models the Go `nil` interface
value (which is also what JSON `null` unmarshals to). -/
inductive Value where
  | null
  | bool (b : Bool)
  | num (n : Int)
  | str (s : String)
  | arr (items : List Value)
  | obj (fields : List (String × Value))

/-- Test for the Go `nil` interface value. -/
def Value.isNull : Value → Bool
  | .null => true
  | _ => false

/-- Association-list update with Go map semantics: replace the binding
if the key is present, otherwise append a new binding. -/
def alInsert : List (String × Value) → String → Value → List (String × Value)
  | [], k, v => [(k, v)]
  | (k1, v1) :: rest, k, v =>
    if k1 = k then (k, v) :: rest else (k1, v1) :: alInsert rest k v

/-- Association-list lookup, modelling a Go map read. -/
def alLookup (m : List (String × Value)) (k : String) : Option Value :=
  (m.find? (fun p => p.1 = k)).map (fun p => p.2)

/-- Four-slot execution state from `pkg/utils/state.go`: `data`, `env`,
`input` and `output`.  The Go maps are modelled as association lists. -/
structure State where
  data : List (String × Value)
  env : List (String × Value)
  input : Value
  output : List (String × Value)

/-- Embedding of `State.AddData`: `maps.Copy(s.Data, data)` copies every
binding of the argument into the data map. -/
def State.AddData (s : State) (d : List (String × Value)) : State :=
  { s with data := d.foldl (fun m kv => alInsert m kv.1 kv.2) s.data }

/-- Embedding of Go `strings.Trim(s, cutset)` for the cutset consisting
of the two brace characters: remove leading and trailing braces. -/
def goTrimBraces (s : String) : String :=
  let isBrace : Char → Bool := fun c => c = lbrace ∨ c = rbrace
  let l := s.toList.dropWhile isBrace
  String.mk ((l.reverse.dropWhile isBrace).reverse)

/-- Embedding of `State.AddOutput` (`pkg/utils/state.go`): when the task
declares `export.as` and the task output is not the Go `nil` value, the
output is stored under the key obtained by trimming braces from the
`export.as` expression string; otherwise the output map is untouched.
`exportAs` is the string returned by `Export.As.String()` in the source,
or `none` when `Export` or `Export.As` is absent. -/
def State.AddOutput (s : State) (exportAs : Option String) (output : Value) : State :=
  if output.isNull then
    s
  else
    match exportAs with
    | some expr => { s with output := alInsert s.output (goTrimBraces expr) output }
    | none => s

/-- Embedding of `State.ClearOutput`. -/
def State.ClearOutput (s : State) : State :=
  { s with output := [] }

/-- Error values produced by the embedded operations.  `appError`
models `temporal.NewNonRetryableApplicationError` and friends by its
message, its error type and its retryability; the other constructors
model the `fmt.Errorf` errors of the corresponding source functions. -/
inductive Err where
  | appError (message : String) (errType : String) (nonRetryable : Bool)
  | targetNotFound (target : String)
  | multipleSwitchDefault (detail : String)
  | scheduleError (detail : String)
  | genericError (detail : String)
deriving Repr, DecidableEq

/-- Message rendered for an error, following the `fmt.Errorf` format
strings of the source. -/
def Err.message : Err → String
  | .appError m _ _ => m
  | .targetNotFound target => "next target specified but not found: " ++ target
  | .multipleSwitchDefault d => "multiple switch statements without when: " ++ d
  | .scheduleError d => d
  | .genericError d => d

/-- Modelled from the spec and the serverlessworkflow SDK helper
`model.IsStrictExpr` (third-party, not part of this repository): a
strict expression is a string of the exact form `$\x7b ... \x7d`, i.e.
one starting with a dollar-brace opener and ending with a closing
brace. -/
def IsStrictExpr (s : String) : Bool :=
  let cs := s.toList
  cs.take 2 = ['$', lbrace] && cs.getLast? = some rbrace

/-- Modelled from the spec and the serverlessworkflow SDK helper
`model.SanitizeExpr` (third-party): strip the strict-expression wrapper
and surrounding spaces; non-expressions are returned unchanged. -/
def SanitizeExpr (s : String) : String :=
  if IsStrictExpr s then ((s.drop 2).dropRight 1).trim else s

/-- Type of the abstract jq engine: `evaluateJQExpression` parses,
compiles and runs a (sanitized) jq expression against the input document
and the state projection.  The gojq engine is third-party, so it is kept
abstract as a parameter of the embedding. -/
abbrev JqEval : Type := String → Value → State → Except Err Value

/-- Embedding of `EvaluateString` (`pkg/utils/runtime_expressions.go`):
a string of strict-expression form is evaluated by the jq engine on its
sanitized body; any other string is returned unchanged.  The evaluation
wrapper of the source is the identity by default and does not alter the
value, so it is not represented. -/
def EvaluateString (jq : JqEval) (str : String) (input : Value) (state : State) :
    Except Err Value :=
  if IsStrictExpr str then
    jq (SanitizeExpr str) input state
  else
    .ok (.str str)

/-- Embedding of Go `strings.ToLower` restricted to the ASCII strings
the interpreter compares against: lower-case every character. -/
def goToLower (s : String) : String :=
  String.mk (s.toList.map Char.toLower)

/-- Embedding of Go `strings.EqualFold` restricted to the ASCII strings
the interpreter compares against: case-insensitive equality via
lower-casing. -/
def goEqualFold (a b : String) : Bool :=
  goToLower a = goToLower b

/-- Embedding of `CheckIfStatement` (`pkg/utils/workflow.go`): a missing
`if` expression is true; otherwise the expression is evaluated with a
Go-nil input document, a parse error becomes a non-retryable
application error, a boolean result is returned as is, a string result
is truthy when it equals `TRUE` case-insensitively or equals `1`, and
any other result type is a non-retryable error. -/
def CheckIfStatement (jq : JqEval) (ifStatement : Option String) (state : State) :
    Except Err Bool :=
  match ifStatement with
  | none => .ok true
  | some e =>
    match EvaluateString jq e Value.null state with
    | .error _ => .error (.appError "Error parsing if statement" "If statement error" true)
    | .ok res =>
      match res with
      | .bool b => .ok b
      | .str r => .ok (goEqualFold r "TRUE" || r = "1")
      | _ => .error (.appError "If statement response type unknown" "If statement error" true)

/-- One executable task of a `do` list, as the sequence executor sees it
after `Build`.  `name` is `builder.GetTaskName()`; `exportAs` and
`thenDir` come from the task's `TaskBase`; the four function fields
model `ShouldRun`, `validateInput`, `ParseMetadata` and the built
`WorkflowFn` (which receives the state by pointer and may mutate it, so
it returns the updated state next to its output value). -/
structure ExecTask where
  name : String
  exportAs : Option String
  thenDir : Option String
  shouldRun : State → Except Err Bool
  validateInput : State → Except Err Unit
  parseMetadata : State → Except Err Unit
  func : State → Except Err (Value × State)

/-- Modelled from the spec and the serverlessworkflow SDK flow
directive (third-party): `end` and `exit` are the terminal sentinels. -/
def flowIsTermination (v : String) : Bool :=
  v = "end" || v = "exit"

/-- Modelled from the spec and the serverlessworkflow SDK flow
directive (third-party): the enum values are `continue`, `end` and
`exit`; any other value is a task-key jump target. -/
def flowIsEnum (v : String) : Bool :=
  v = "continue" || v = "end" || v = "exit"

/-- Outcome of one loop iteration of `iterateTasks` for the task under
consideration: an error aborts the loop, `halt` is the `break` taken on
a terminal flow directive, and `next` continues with the updated state
and pending jump target. -/
inductive StepRes where
  | err (e : Err)
  | halt (s : State)
  | next (s : State) (nextTarget : Option String)

/-- Loop body of `iterateTasks` (`pkg/dsl/tasks/task_builder_do.go`)
for a task that has passed the pending-target filter: evaluate
`ShouldRun` (skip when false), validate the task input, parse the
metadata, run the task function, apply the `AddOutput` export step, and
inspect the `then` flow directive (termination → break; a non-enum value
→ pending jump target; otherwise plain continuation). -/
def execTask (t : ExecTask) (s : State) : StepRes :=
  match t.shouldRun s with
  | .error e => .err e
  | .ok false => .next s none
  | .ok true =>
    match t.validateInput s with
    | .error e => .err e
    | .ok _ =>
      match t.parseMetadata s with
      | .error e => .err e
      | .ok _ =>
        match t.func s with
        | .error e => .err e
        | .ok (output, s1) =>
          let s2 := s1.AddOutput t.exportAs output
          match t.thenDir with
          | none => .next s2 none
          | some d =>
            if flowIsTermination d then .halt s2
            else if ¬ flowIsEnum d then .next s2 (some d)
            else .next s2 none

/-- Data recorded at the top of every loop iteration: the executor
stores the task name under `data.task.name` before the pending-target
check. -/
def addTaskMeta (name : String) (s : State) : State :=
  s.AddData [("task", .obj [("name", .str name)])]

/-- Embedding of `iterateTasks` (`pkg/dsl/tasks/task_builder_do.go`):
walk the built task list in declaration order carrying the pending jump
target `nextTargetName`; skip tasks while a pending target is set and
does not match; after the loop, fail with an error naming the target
when it was never matched, otherwise return the final state. -/
def iterateTasks : List ExecTask → State → Option String → Except Err State
  | [], _, some target => .error (.targetNotFound target)
  | [], s, none => .ok s
  | t :: rest, s, nt =>
    let s1 := addTaskMeta t.name s
    match nt with
    | some target =>
      if t.name = target then
        match execTask t s1 with
        | .err e => .error e
        | .halt s2 => .ok s2
        | .next s2 nt2 => iterateTasks rest s2 nt2
      else
        iterateTasks rest s1 (some target)
    | none =>
      match execTask t s1 with
      | .err e => .error e
      | .halt s2 => .ok s2
      | .next s2 nt2 => iterateTasks rest s2 nt2

/-- Instrumented copy of `iterateTasks` that additionally records the
names of the tasks whose loop body was entered (i.e. that were not
skipped by the pending-target filter), in execution order.  It is used
to state that the executor makes a single forward pass and never
re-executes a task. -/
def iterateTasksTrace : List ExecTask → State → Option String → (List String × Except Err State)
  | [], _, some target => ([], .error (.targetNotFound target))
  | [], s, none => ([], .ok s)
  | t :: rest, s, nt =>
    let s1 := addTaskMeta t.name s
    match nt with
    | some target =>
      if t.name = target then
        match execTask t s1 with
        | .err e => ([t.name], .error e)
        | .halt s2 => ([t.name], .ok s2)
        | .next s2 nt2 =>
          (t.name :: (iterateTasksTrace rest s2 nt2).1, (iterateTasksTrace rest s2 nt2).2)
      else
        iterateTasksTrace rest s1 (some target)
    | none =>
      match execTask t s1 with
      | .err e => ([t.name], .error e)
      | .halt s2 => ([t.name], .ok s2)
      | .next s2 nt2 =>
        (t.name :: (iterateTasksTrace rest s2 nt2).1, (iterateTasksTrace rest s2 nt2).2)

/-- One named case of a `switch` task: in the document each list entry
is a single-binding map from the case name to its `when`/`then` pair. -/
structure SwitchCase where
  name : String
  whenE : Option String
  thenD : Option String

/-- Build-time validation of a `switch` task
(`pkg/dsl/tasks/task_builder_switch.go`): at most one case may omit
`when`; a second such case fails the build with an error naming the
task, the entry index and the case name. -/
def switchBuildCheck (taskName : String) : List SwitchCase → Nat → Bool → Except Err Unit
  | [], _, _ => .ok ()
  | c :: rest, i, hasDefault =>
    match c.whenE with
    | none =>
      if hasDefault then
        .error (.multipleSwitchDefault
          (taskName ++ "." ++ toString i ++ "." ++ c.name))
      else
        switchBuildCheck taskName rest (i + 1) true
    | some _ => switchBuildCheck taskName rest (i + 1) hasDefault

/-- Result of the runtime part of a `switch` task: either no case
matched (fall through, returning Go `nil`), or a case matched but its
`then` was absent or terminal (the switch returns without executing
anything), or a case matched and its `then` value is executed as a
child workflow. -/
inductive SwitchOutcome where
  | noMatch
  | terminated (caseName : String)
  | execChild (caseName : String) (workflowName : String)
deriving Repr, DecidableEq

/-- Runtime body of the `switch` task builder
(`pkg/dsl/tasks/task_builder_switch.go`): evaluate the cases in
declaration order through `CheckIfStatement`; the first truthy case is
selected; its `then` target is executed as a child workflow unless the
target is absent or terminal; later cases are not evaluated. -/
def runSwitch (jq : JqEval) : List SwitchCase → State → Except Err SwitchOutcome
  | [], _ => .ok .noMatch
  | c :: rest, s =>
    match CheckIfStatement jq c.whenE s with
    | .error e => .error e
    | .ok false => runSwitch jq rest s
    | .ok true =>
      match c.thenD with
      | none => .ok (.terminated c.name)
      | some d =>
        if flowIsTermination d then .ok (.terminated c.name)
        else .ok (.execChild c.name d)

/-- Standard base64 alphabet used by Go `encoding/base64.StdEncoding`. -/
def base64Alphabet : List Char :=
  "ABCDEFGHIJKLMNOPQRSTUVWXYZabcdefghijklmnopqrstuvwxyz0123456789+/".toList

/-- Character of the standard base64 alphabet at the given index. -/
def b64c (n : Nat) : Char := base64Alphabet.getD n (Char.ofNat 65)

/-- Embedding of Go `base64.StdEncoding.EncodeToString` over a byte
list (bytes as naturals below 256), including `=` padding. -/
def goBase64Encode : List Nat → String
  | [] => ""
  | [a] =>
    String.mk [b64c (a / 4), b64c ((a % 4) * 16), '=', '=']
  | [a, b] =>
    String.mk [b64c (a / 4), b64c ((a % 4) * 16 + b / 16), b64c ((b % 16) * 4), '=']
  | a :: b :: c :: rest =>
    String.mk [b64c (a / 4), b64c ((a % 4) * 16 + b / 16),
      b64c ((b % 16) * 4 + c / 64), b64c (c % 64)] ++ goBase64Encode rest

/-- HTTP request summary carried inside the activity's response value
(`HTTPRequest` in `pkg/dsl/tasks/task_builder_call_http.go`). -/
structure HTTPRequestM where
  method : String
  uri : String
  headers : List (String × String)

/-- HTTP response shape built by the activity (`HTTPResponse` in
`pkg/dsl/tasks/task_builder_call_http.go`). -/
structure HTTPResponseM where
  request : HTTPRequestM
  statusCode : Nat
  headers : List (String × String)
  content : Value

/-- Rendering of a string-to-string header map as a dynamic value. -/
def headersToValue (hs : List (String × String)) : Value :=
  .obj (hs.map (fun p => (p.1, .str p.2)))

/-- Rendering of the `HTTPResponse` struct as a dynamic value, matching
its JSON field tags. -/
def httpResponseValue (r : HTTPResponseM) : Value :=
  .obj [("request", .obj [("method", .str r.request.method),
          ("uri", .str r.request.uri),
          ("headers", headersToValue r.request.headers)]),
        ("statusCode", .num r.statusCode),
        ("headers", headersToValue r.headers),
        ("content", r.content)]

/-- Embedding of `parseOutput`
(`pkg/dsl/tasks/task_builder_call_http.go`): `raw` returns the base64
encoding of the raw body bytes, `response` returns the whole response
shape, anything else returns just the content. -/
def parseOutput (outputType : String) (httpResp : HTTPResponseM) (raw : List Nat) : Value :=
  if outputType = "raw" then .str (goBase64Encode raw)
  else if outputType = "response" then httpResponseValue httpResp
  else httpResp.content

/-- Embedding of the response handling of `callHTTPActivity`
(`pkg/dsl/tasks/task_builder_call_http.go`), from the point where the
HTTP response has been received and its body parsed into `content`.
A status code in [300,400) produces a non-retryable application error
with message `CallHTTP returned 3xx status code`; a status code in
[400,500) produces a non-retryable application error with message
`CallHTTP returned 4xx status code`; otherwise the shaped output is
returned.  The `redirect` flag only configures the HTTP client's
redirect policy earlier in `callHTTPAction`; the status dispatch here
does not consult it. -/
def callHTTPActivityResult (redirect : Bool) (statusCode : Nat) (method uri : String)
    (reqHeaders respHeaders : List (String × String)) (content : Value)
    (outputType : String) (raw : List Nat) : Except Err Value :=
  if 300 ≤ statusCode ∧ statusCode < 400 then
    .error (.appError "CallHTTP returned 3xx status code" "CallHTTP error" true)
  else if 400 ≤ statusCode ∧ statusCode < 500 then
    .error (.appError "CallHTTP returned 4xx status code" "CallHTTP error" true)
  else
    .ok (parseOutput outputType
      ⟨⟨method, uri, reqHeaders⟩, statusCode, respHeaders, content⟩ raw)

/-- Relevant fields of the document's `schedule` section
(`model.Schedule`): a cron expression, an optional fixed interval
(duration in nanoseconds), and the reserved `after` field. -/
structure ScheduleModel where
  cron : String
  every : Option Nat
  after : Option Nat

/-- Temporal schedule specification produced by the reconciler
(`client.ScheduleSpec` fields used by the source). -/
structure ScheduleSpec where
  cronExpressions : List String
  intervals : List Nat
deriving Repr, DecidableEq

/-- Embedding of `buildTemporalScheduleSpec` (`pkg/dsl/schedules.go`):
a non-empty cron expression becomes a cron list entry, a declared
interval becomes an interval entry, and a declared `after` is
rejected. -/
def buildTemporalScheduleSpec (schedule : ScheduleModel) : Except Err ScheduleSpec :=
  let cronExpression := if schedule.cron ≠ "" then [schedule.cron] else []
  let intervals := match schedule.every with
    | some d => [d]
    | none => []
  match schedule.after with
  | some _ => .error (.scheduleError "schedule.after not supported")
  | none => .ok ⟨cronExpression, intervals⟩

/-- Schedule record held by the engine's schedule store, carrying the
fields the reconciler creates (`client.ScheduleOptions`). -/
structure ScheduleEntry where
  id : String
  spec : ScheduleSpec
  workflowName : String
  taskQueue : String
  args : List Value

/-- Inputs of `UpsertSchedule` that come from the parsed document: the
workflow name, the document metadata and the optional schedule
section. -/
structure SchedWorkflow where
  workflowName : String
  metadata : List (String × Value)
  schedule : Option ScheduleModel

/-- Schedule identifier computation at the top of `UpsertSchedule`
(`pkg/dsl/schedules.go`): default `dsl_<workflow name>`, overridden by
the `scheduleId` metadata entry, which must be a string. -/
def computeScheduleID (w : SchedWorkflow) : Except Err String :=
  match alLookup w.metadata "scheduleId" with
  | some (.str sID) => .ok sID
  | some _ => .error (.scheduleError "schedule id must be a string")
  | none => .ok ("dsl_" ++ w.workflowName)

/-- Extraction of the `scheduleInput` metadata entry
(`pkg/dsl/schedules.go`): absent means no arguments, present values
must be an array. -/
def scheduleInputOf (w : SchedWorkflow) : Except Err (List Value) :=
  match alLookup w.metadata "scheduleInput" with
  | some (.arr i) => .ok i
  | some _ => .error (.scheduleError "schedule input must be in array format")
  | none => .ok []

/-- Embedding of `UpsertSchedule` (`pkg/dsl/schedules.go`) against an
explicit schedule store (the engine's schedule list): compute the
schedule identifier, delete every existing schedule with that
identifier, stop if the document declares no schedule, otherwise
resolve the target workflow name, build the engine spec, resolve the
input arguments and create the new schedule. -/
def UpsertSchedule (w : SchedWorkflow) (taskQueue : String)
    (store : List ScheduleEntry) : Except Err (List ScheduleEntry) :=
  match computeScheduleID w with
  | .error e => .error e
  | .ok scheduleID =>
    let store1 := store.filter (fun s => s.id ≠ scheduleID)
    match w.schedule with
    | none => .ok store1
    | some schedule =>
      match alLookup w.metadata "scheduleWorkflowName" with
      | none => .error (.scheduleError "no schedule workflow name defined in metadata")
      | some (.str workflowName) =>
        match buildTemporalScheduleSpec schedule with
        | .error e => .error e
        | .ok spec =>
          match scheduleInputOf w with
          | .error e => .error e
          | .ok input =>
            .ok (store1 ++ [⟨scheduleID, spec, workflowName, taskQueue, input⟩])
      | some _ => .error (.scheduleError "schedule workflow name must be a string")

/-- One entry of a `listen` task (`model.EventFilter` fields used by
the source): the event identifier and its declared type. -/
structure ListenEvent where
  id : String
  withType : String
deriving Repr, DecidableEq

/-- State threaded through the registration loop of the built `listen`
task (`pkg/dsl/tasks/task_builder_listen.go`): the completion bits for
the `all` predicate, the `await` flag, and the handlers registered so
far (recorded as type/identifier pairs). -/
structure ListenLoopState where
  areAllComplete : List Bool
  await : Bool
  registered : List (String × String)

/-- Registration loop of the built `listen` task
(`pkg/dsl/tasks/task_builder_listen.go`): for each entry, grow the
completion-bit slice under the `all` predicate, then switch on the
entry type — `query` registers a query handler and clears the `await`
flag (non-blocking), `signal` and `update` register blocking handlers.
The switch has no default case; entry types are validated before the
closure is built.  After the loop, the task blocks on the completion
predicate only when `await` is still set. -/
def listenStep (isAll : Bool) (st : ListenLoopState) (e : ListenEvent) : ListenLoopState :=
  let st := if isAll then
      { st with areAllComplete := st.areAllComplete ++ [false] }
    else st
  if e.withType = "query" then
    { st with await := false, registered := st.registered ++ [("query", e.id)] }
  else if e.withType = "signal" then
    { st with registered := st.registered ++ [("signal", e.id)] }
  else if e.withType = "update" then
    { st with registered := st.registered ++ [("update", e.id)] }
  else
    st

/-- Full registration loop of the built `listen` task: fold
`listenStep` over the entries starting from an empty completion slice,
a set `await` flag and no registrations. -/
def listenExec (events : List ListenEvent) (isAll : Bool) : ListenLoopState :=
  events.foldl (listenStep isAll) ⟨[], true, []⟩

/-- Dynamic Go value arriving in a search-attribute declaration.  The
coercion layer distinguishes exactly these runtime types; `vother`
stands for any value of a type outside the matrix (struct, map, list of
non-strings, and so on).  Float values are carried as rationals. -/
inductive GoVal where
  | vnil
  | vbool (b : Bool)
  | vint (n : Int)
  | vint32 (n : Int)
  | vint64 (n : Int)
  | vfloat32 (q : Rat)
  | vfloat64 (q : Rat)
  | vstring (s : String)
  | vtime (t : String)
  | vstringList (l : List String)
  | vother
deriving Repr, DecidableEq

/-- Search-attribute declaration (`SearchAttribute` in the dsl
package): a declared type name and a dynamic value, where a nil value
means explicit unset. -/
structure SearchAttribute where
  type' : String
  value : GoVal
deriving Repr, DecidableEq

/-- Typed search-attribute update produced by the coercion layer
(`temporal.SearchAttributeUpdate` values built by the source). -/
inductive SAUpdate where
  | boolUnset (key : String)
  | boolSet (key : String) (b : Bool)
  | timeUnset (key : String)
  | timeSet (key : String) (t : String)
  | floatUnset (key : String)
  | floatSet (key : String) (x : Rat)
  | intUnset (key : String)
  | intSet (key : String) (n : Int)
  | keywordUnset (key : String)
  | keywordSet (key : String) (s : String)
  | keywordListUnset (key : String)
  | keywordListSet (key : String) (l : List String)
  | textUnset (key : String)
  | textSet (key : String) (s : String)
deriving Repr, DecidableEq

/-- Errors of the search-attribute coercion layer: `invalidType` is the
package-level `ErrInvalidType`, `unknownSearchAttributeType` is
`ErrUnknownSearchAttributeType` wrapped with the offending type name,
and `conversionError` carries the message of a `fmt.Errorf`
conversion failure. -/
inductive SAErr where
  | invalidType
  | unknownSearchAttributeType (t : String)
  | conversionError (msg : String)
deriving Repr, DecidableEq

/-- Result of a coercion step: a typed update, an error, or a Go
runtime panic.  A panic arises in the source from an unchecked type
assertion (`v.Value.(string)` or `v.Value.([]string)`); it is made
explicit here because a panicking function returns nothing. -/
inductive SAResult where
  | ok (u : SAUpdate)
  | err (e : SAErr)
  | runtimePanic
deriving Repr, DecidableEq

/-- Embedding of Go `strconv.ParseBool`: it accepts exactly the twelve
literal forms below and rejects everything else. -/
def goParseBool (s : String) : Option Bool :=
  if s = "1" ∨ s = "t" ∨ s = "T" ∨ s = "TRUE" ∨ s = "true" ∨ s = "True" then
    some true
  else if s = "0" ∨ s = "f" ∨ s = "F" ∨ s = "FALSE" ∨ s = "false" ∨ s = "False" then
    some false
  else
    none

/-- Embedding of Go `strconv.ParseInt(s, 10, 64)`: an optional sign
followed by at least one decimal digit, within the signed 64-bit
range.  (Go also accepts underscore separators only for base 0, which
does not apply here.) -/
def goParseInt (s : String) : Option Int :=
  let cs := s.toList
  let signDigits : Int × List Char :=
    match cs with
    | '+' :: rest => (1, rest)
    | '-' :: rest => (-1, rest)
    | l => (1, l)
  let sign := signDigits.1
  let digits := signDigits.2
  if digits.isEmpty then none
  else if digits.all Char.isDigit then
    let n : Nat := digits.foldl (fun acc c => acc * 10 + (c.toNat - 48)) 0
    let v : Int := sign * n
    if -(2 ^ 63) ≤ v ∧ v ≤ 2 ^ 63 - 1 then some v else none
  else none

/-- Decimal digit list to natural number. -/
def digitsToNat (l : List Char) : Nat :=
  l.foldl (fun acc c => acc * 10 + (c.toNat - 48)) 0

/-- Embedding of Go `strconv.ParseFloat(s, 64)` restricted to finite
decimal forms: optional sign, digits with an optional fractional part
(at least one digit overall), and an optional decimal exponent.  The
special forms (`Inf`, `NaN`, hexadecimal floats, underscores) are not
used by workflow documents and are not modelled; the value is carried
exactly as a rational. -/
def goParseFloat (s : String) : Option Rat :=
  let cs := s.toList
  let signRest : Rat × List Char :=
    match cs with
    | '+' :: rest => (1, rest)
    | '-' :: rest => (-1, rest)
    | l => (1, l)
  let sign := signRest.1
  let intPart := signRest.2.takeWhile Char.isDigit
  let afterInt := signRest.2.dropWhile Char.isDigit
  let fracRest : List Char × List Char :=
    match afterInt with
    | '.' :: r => (r.takeWhile Char.isDigit, r.dropWhile Char.isDigit)
    | _ => ([], afterInt)
  let fracPart := fracRest.1
  let afterFrac := fracRest.2
  if intPart.isEmpty ∧ fracPart.isEmpty then none
  else
    let mantissa : Rat :=
      (digitsToNat intPart : Rat) + (digitsToNat fracPart : Rat) / ((10 : Rat) ^ fracPart.length)
    match afterFrac with
    | [] => some (sign * mantissa)
    | 'e' :: r | 'E' :: r =>
      let esignRest : Int × List Char :=
        match r with
        | '+' :: r2 => (1, r2)
        | '-' :: r2 => (-1, r2)
        | l => (1, l)
      if esignRest.2.isEmpty ∨ ¬ esignRest.2.all Char.isDigit then none
      else
        let e : Int := esignRest.1 * digitsToNat esignRest.2
        some (sign * mantissa * (10 : Rat) ^ e)
    | _ => none

/-- Shape check modelling Go `time.Parse(time.RFC3339, s)`: the string
must have the RFC3339 layout `YYYY-MM-DDTHH:MM:SS` followed by an
optional fraction and a `Z` or numeric offset.  The parsed instant is
represented by the accepted text itself; no claim depends on instant
arithmetic. -/
def goParseRFC3339 (s : String) : Option String :=
  let cs := s.toList
  let datePart := cs.take 19
  let rest := cs.drop 19
  let dateOk : Bool :=
    datePart.length == 19 &&
    (List.range 19).all (fun i =>
      let c := datePart.getD i ' '
      match i with
      | 4 | 7 => c == '-'
      | 10 => c == 'T'
      | 13 | 16 => c == ':'
      | _ => c.isDigit)
  let fracRest : List Char :=
    match rest with
    | '.' :: r => if (r.takeWhile Char.isDigit).isEmpty then ['?'] else r.dropWhile Char.isDigit
    | _ => rest
  let zoneOk : Bool :=
    match fracRest with
    | ['Z'] => true
    | '+' :: z | '-' :: z =>
      z.length == 5 && (List.range 5).all (fun i =>
        let c := z.getD i ' '
        if i == 2 then c == ':' else c.isDigit)
    | _ => false
  if dateOk && zoneOk then some s else none

/-- Go float64-to-int64 conversion: truncation toward zero. -/
def goTruncRat (q : Rat) : Int :=
  q.num.tdiv q.den

/-- Embedding of `SearchAttribute.newBooleanUpdate`: nil unsets, a
native bool is used directly, a string goes through
`strconv.ParseBool`, anything else is `ErrInvalidType`. -/
def newBooleanUpdate (v : SearchAttribute) (key : String) : SAResult :=
  match v.value with
  | .vnil => .ok (.boolUnset key)
  | .vbool e => .ok (.boolSet key e)
  | .vstring e =>
    match goParseBool e with
    | some i => .ok (.boolSet key i)
    | none => .err (.conversionError "error converting string to bool")
  | _ => .err .invalidType

/-- Embedding of `SearchAttribute.newDateTimeUpdate`: nil unsets, a
native timestamp is used directly, a string goes through the RFC3339
parser, anything else is `ErrInvalidType`. -/
def newDateTimeUpdate (v : SearchAttribute) (key : String) : SAResult :=
  match v.value with
  | .vnil => .ok (.timeUnset key)
  | .vtime e => .ok (.timeSet key e)
  | .vstring e =>
    match goParseRFC3339 e with
    | some t => .ok (.timeSet key t)
    | none => .err (.conversionError "error parsing datetime string")
  | _ => .err .invalidType

/-- Embedding of `SearchAttribute.newFloatUpdate`: nil unsets, every
numeric type converts to float64, a string goes through
`strconv.ParseFloat`, anything else is `ErrInvalidType`. -/
def newFloatUpdate (v : SearchAttribute) (key : String) : SAResult :=
  match v.value with
  | .vnil => .ok (.floatUnset key)
  | .vint e => .ok (.floatSet key (e : Rat))
  | .vint32 e => .ok (.floatSet key (e : Rat))
  | .vint64 e => .ok (.floatSet key (e : Rat))
  | .vfloat32 e => .ok (.floatSet key e)
  | .vfloat64 e => .ok (.floatSet key e)
  | .vstring e =>
    match goParseFloat e with
    | some val => .ok (.floatSet key val)
    | none => .err (.conversionError "error converting string to float64")
  | _ => .err .invalidType

/-- Embedding of `SearchAttribute.newIntegerUpdate`: nil unsets, every
numeric type converts to int64 (floats truncating toward zero), a
string goes through `strconv.ParseInt`, anything else is
`ErrInvalidType`. -/
def newIntegerUpdate (v : SearchAttribute) (key : String) : SAResult :=
  match v.value with
  | .vnil => .ok (.intUnset key)
  | .vint e => .ok (.intSet key e)
  | .vint32 e => .ok (.intSet key e)
  | .vint64 e => .ok (.intSet key e)
  | .vfloat32 e => .ok (.intSet key (goTruncRat e))
  | .vfloat64 e => .ok (.intSet key (goTruncRat e))
  | .vstring e =>
    match goParseInt e with
    | some val => .ok (.intSet key val)
    | none => .err (.conversionError "error converting string to int64")
  | _ => .err .invalidType

/-- Embedding of `SearchAttribute.newKeywordListUpdate`: nil unsets;
otherwise the source performs the unchecked type assertion
`v.Value.([]string)`, which panics at run time for every non-nil value
that is not a string list. -/
def newKeywordListUpdate (v : SearchAttribute) (key : String) : SAResult :=
  match v.value with
  | .vnil => .ok (.keywordListUnset key)
  | .vstringList l => .ok (.keywordListSet key l)
  | _ => .runtimePanic

/-- Embedding of `SearchAttribute.newKeywordUpdate`: nil unsets;
otherwise the source performs the unchecked type assertion
`v.Value.(string)`, which panics at run time for every non-nil value
that is not a string. -/
def newKeywordUpdate (v : SearchAttribute) (key : String) : SAResult :=
  match v.value with
  | .vnil => .ok (.keywordUnset key)
  | .vstring s => .ok (.keywordSet key s)
  | _ => .runtimePanic

/-- Embedding of `SearchAttribute.newTextUpdate`: nil unsets; otherwise
the source performs the unchecked type assertion `v.Value.(string)`,
which panics at run time for every non-nil value that is not a
string. -/
def newTextUpdate (v : SearchAttribute) (key : String) : SAResult :=
  match v.value with
  | .vnil => .ok (.textUnset key)
  | .vstring s => .ok (.textSet key s)
  | _ => .runtimePanic

/-- Modelled from the spec: the search-attribute type constants of the
dsl package (their declaration file is not among the provided sources;
`setAttribute` compares them against the lower-cased declared type, and
the validator tag lists the seven names case-insensitively). -/
def SearchAttributeBooleanType : String := "bool"

/-- Modelled from the spec: see `SearchAttributeBooleanType`. -/
def SearchAttributeDateTimeType : String := "datetime"

/-- Modelled from the spec: see `SearchAttributeBooleanType`. -/
def SearchAttributeDoubleType : String := "double"

/-- Modelled from the spec: see `SearchAttributeBooleanType`. -/
def SearchAttributeIntType : String := "int"

/-- Modelled from the spec: see `SearchAttributeBooleanType`. -/
def SearchAttributeKeywordType : String := "keyword"

/-- Modelled from the spec: see `SearchAttributeBooleanType`. -/
def SearchAttributeKeywordListType : String := "keywordlist"

/-- Modelled from the spec: see `SearchAttributeBooleanType`. -/
def SearchAttributeTextType : String := "text"

/-- Embedding of `SearchAttribute.setAttribute`: dispatch on the
lower-cased declared type to the typed coercion helpers; an
unrecognised type is `ErrUnknownSearchAttributeType`. -/
def setAttribute (v : SearchAttribute) (key : String) : SAResult :=
  let t := goToLower v.type'
  if t = SearchAttributeBooleanType then newBooleanUpdate v key
  else if t = SearchAttributeDateTimeType then newDateTimeUpdate v key
  else if t = SearchAttributeDoubleType then newFloatUpdate v key
  else if t = SearchAttributeIntType then newIntegerUpdate v key
  else if t = SearchAttributeKeywordType then newKeywordUpdate v key
  else if t = SearchAttributeKeywordListType then newKeywordListUpdate v key
  else if t = SearchAttributeTextType then newTextUpdate v key
  else .err (.unknownSearchAttributeType v.type')

/-! Helper lemmas. -/

/-- Looking up the key just inserted returns the inserted value. -/
theorem alLookup_alInsert (m : List (String × Value)) (k : String) (v : Value) :
    alLookup (alInsert m k v) k = some v := by
  induction m with
  | nil => simp [alInsert, alLookup]
  | cons p rest ih =>
    by_cases h : p.1 = k
    · simp [alInsert, alLookup, h]
    · simp [alInsert, alLookup, h, List.find?]
      simpa [alLookup] using ih

/-- Filtering is idempotent. -/
theorem filter_idem {α : Type} (p : α → Bool) (l : List α) :
    (l.filter p).filter p = l.filter p := by
  induction l with
  | nil => rfl
  | cons a rest ih =>
    by_cases h : p a <;> simp [List.filter, h, ih]

/-- After removing every element whose key matches, none remains. -/
theorem filter_eq_after_filter_ne (l : List ScheduleEntry) (sid : String) :
    (l.filter (fun s => s.id ≠ sid)).filter (fun s => s.id = sid) = [] := by
  induction l with
  | nil => rfl
  | cons a rest ih =>
    by_cases h : a.id = sid <;> simp [List.filter, h, ih]

/-- The await flag after one registration step: cleared by a `query`
entry, otherwise preserved. -/
theorem listenStep_await (isAll : Bool) (st : ListenLoopState) (e : ListenEvent) :
    (listenStep isAll st e).await = (st.await && ¬ e.withType = "query") := by
  by_cases hall : isAll <;> by_cases hq : e.withType = "query" <;>
    by_cases hs : e.withType = "signal" <;> by_cases hu : e.withType = "update" <;>
    simp [listenStep, hall, hq, hs, hu]

/-- The registrations after one registration step of a valid entry:
one new handler of the entry's type. -/
theorem listenStep_registered (isAll : Bool) (st : ListenLoopState) (e : ListenEvent)
    (hvalid : e.withType = "query" ∨ e.withType = "signal" ∨ e.withType = "update") :
    (listenStep isAll st e).registered = st.registered ++ [(e.withType, e.id)] := by
  rcases hvalid with h | h | h <;> by_cases hall : isAll <;>
    simp [listenStep, h, hall]

/-- The await flag after the listen registration loop is the initial
flag conjoined with the absence of `query` entries. -/
theorem listenFold_await (isAll : Bool) (events : List ListenEvent) (st : ListenLoopState) :
    (events.foldl (listenStep isAll) st).await =
      (st.await && events.all (fun e => ¬ e.withType = "query")) := by
  induction events generalizing st with
  | nil => simp
  | cons e rest ih =>
    rw [List.foldl_cons, ih, listenStep_await]
    simp [List.all_cons, Bool.and_assoc]

/-- When every entry type is valid, the listen registration loop
registers one handler per entry, in order. -/
theorem listenFold_registered (isAll : Bool) (events : List ListenEvent)
    (st : ListenLoopState)
    (hvalid : ∀ e ∈ events,
      e.withType = "query" ∨ e.withType = "signal" ∨ e.withType = "update") :
    (events.foldl (listenStep isAll) st).registered =
      st.registered ++ events.map (fun e => (e.withType, e.id)) := by
  induction events generalizing st with
  | nil => simp
  | cons e rest ih =>
    have he := hvalid e (List.mem_cons_self e rest)
    have hrest : ∀ x ∈ rest,
        x.withType = "query" ∨ x.withType = "signal" ∨ x.withType = "update" :=
      fun x hx => hvalid x (List.mem_cons_of_mem e hx)
    rw [List.foldl_cons, ih _ hrest, listenStep_registered _ _ _ he]
    simp

/-- Build check acceptance: the check passes exactly when the number of
cases without `when` does not exceed the remaining allowance (one when
no default has been seen yet, zero afterwards). -/
theorem switchBuildCheck_ok_iff (n : String) (cases : List SwitchCase) (i : Nat) (b : Bool) :
    switchBuildCheck n cases i b = .ok () ↔
      cases.countP (fun c => c.whenE.isNone) ≤ (if b then 0 else 1) := by
  induction cases generalizing i b with
  | nil => simp [switchBuildCheck]
  | cons c rest ih =>
    cases hw : c.whenE with
    | none =>
      cases b with
      | true => simp [switchBuildCheck, hw, List.countP_cons]
      | false =>
        rw [show switchBuildCheck n (c :: rest) i false =
              switchBuildCheck n rest (i + 1) true by simp [switchBuildCheck, hw]]
        rw [ih]
        simp [List.countP_cons, hw]
    | some e =>
      rw [show switchBuildCheck n (c :: rest) i b =
            switchBuildCheck n rest (i + 1) b by simp [switchBuildCheck, hw]]
      rw [ih]
      simp [List.countP_cons, hw]

/-- A prefix of cases that all evaluate non-truthy does not affect the
switch outcome. -/
theorem runSwitch_append_falsy (jq : JqEval) (pre rest : List SwitchCase) (s : State)
    (hpre : ∀ c ∈ pre, CheckIfStatement jq c.whenE s = .ok false) :
    runSwitch jq (pre ++ rest) s = runSwitch jq rest s := by
  induction pre with
  | nil => rfl
  | cons c pre ih =>
    have hc := hpre c (List.mem_cons_self c pre)
    have hrest : ∀ x ∈ pre, CheckIfStatement jq x.whenE s = .ok false :=
      fun x hx => hpre x (List.mem_cons_of_mem c hx)
    simp only [List.cons_append, runSwitch, hc]
    exact ih hrest

/-- A truthy head case decides the switch outcome without looking at
the remaining cases. -/
theorem runSwitch_cons_truthy (jq : JqEval) (c : SwitchCase) (rest : List SwitchCase)
    (s : State) (hc : CheckIfStatement jq c.whenE s = .ok true) :
    runSwitch jq (c :: rest) s =
      .ok (match c.thenD with
        | none => .terminated c.name
        | some d =>
          if flowIsTermination d then .terminated c.name else .execChild c.name d) := by
  simp only [runSwitch, hc]
  cases c.thenD with
  | none => rfl
  | some d => by_cases hd : flowIsTermination d <;> simp [hd]

/-- The executed-task trace of the sequence executor is a subsequence
of the task names in declaration order: a single forward pass, with no
task entered twice and no backward movement. -/
theorem iterateTasksTrace_sublist (tasks : List ExecTask) :
    ∀ s nt, (iterateTasksTrace tasks s nt).1.Sublist (tasks.map (fun t => t.name)) := by
  induction tasks with
  | nil =>
    intro s nt
    cases nt <;> simp [iterateTasksTrace]
  | cons t rest ih =>
    intro s nt
    cases nt with
    | none =>
      simp only [iterateTasksTrace, List.map_cons]
      cases h : execTask t (addTaskMeta t.name s) with
      | err e => exact (List.nil_sublist _).cons₂ t.name
      | halt s2 => exact (List.nil_sublist _).cons₂ t.name
      | next s2 nt2 => exact (ih s2 nt2).cons₂ t.name
    | some target =>
      by_cases he : t.name = target
      · simp only [iterateTasksTrace, if_pos he, List.map_cons]
        cases h : execTask t (addTaskMeta t.name s) with
        | err e => exact (List.nil_sublist _).cons₂ t.name
        | halt s2 => exact (List.nil_sublist _).cons₂ t.name
        | next s2 nt2 => exact (ih s2 nt2).cons₂ t.name
      · simp only [iterateTasksTrace, if_neg he, List.map_cons]
        exact (ih (addTaskMeta t.name s) (some target)).cons t.name

/-- The instrumented executor computes the same result as
`iterateTasks`. -/
theorem iterateTasksTrace_agrees (tasks : List ExecTask) :
    ∀ s nt, (iterateTasksTrace tasks s nt).2 = iterateTasks tasks s nt := by
  induction tasks with
  | nil =>
    intro s nt
    cases nt <;> simp [iterateTasksTrace, iterateTasks]
  | cons t rest ih =>
    intro s nt
    cases nt with
    | none =>
      simp only [iterateTasksTrace, iterateTasks]
      cases h : execTask t (addTaskMeta t.name s) <;> simp [ih]
    | some target =>
      by_cases he : t.name = target
      · simp only [iterateTasksTrace, iterateTasks, if_pos he]
        cases h : execTask t (addTaskMeta t.name s) <;> simp [ih]
      · simp only [iterateTasksTrace, iterateTasks, if_neg he]
        exact ih (addTaskMeta t.name s) (some target)

/-- A pending jump target matched by no remaining task makes the loop
finish by skipping everything and fail with the target's name. -/
theorem iterateTasks_missing_target (tasks : List ExecTask) (target : String)
    (h : ∀ t ∈ tasks, t.name ≠ target) :
    ∀ s, iterateTasks tasks s (some target) = .error (.targetNotFound target) := by
  induction tasks with
  | nil => intro s; rfl
  | cons t rest ih =>
    intro s
    have hne := h t (List.mem_cons_self t rest)
    have hrest : ∀ x ∈ rest, x.name ≠ target :=
      fun x hx => h x (List.mem_cons_of_mem t hx)
    simp only [iterateTasks, if_neg hne]
    exact ih hrest _

/-! Claim theorems. -/

/-- C8: for every state and every string that is not of the
strict-expression form, `EvaluateString` returns the string itself
unchanged and without error, regardless of the contents of the state
(and of the jq engine and the input document). -/
theorem evaluateString_non_expr_identity (jq : JqEval) (e : String) (input : Value)
    (s : State) (h : IsStrictExpr e = false) :
    EvaluateString jq e input s = .ok (.str e) := by
  simp [EvaluateString, h]

/-- C8 witness: a concrete non-expression string passes through a
concrete state unchanged. -/
theorem evaluateString_non_expr_identity_witness :
    IsStrictExpr "hello" = false ∧
    EvaluateString (fun _ _ _ => .ok Value.null) "hello" Value.null ⟨[], [], Value.null, []⟩ =
      .ok (.str "hello") :=
  ⟨by decide, evaluateString_non_expr_identity _ "hello" _ _ (by decide)⟩

/-- C5: in the call-http activity, a response status code in [300,400)
(here under `redirect == false`, though the dispatch does not consult
the flag) yields a non-retryable application error with message
`CallHTTP returned 3xx status code`, and a status code in [400,500)
yields a non-retryable application error with message
`CallHTTP returned 4xx status code`; in both cases the result is an
error, so no output value is returned. -/
theorem callHTTP_3xx_4xx_errors (c : Nat) (method uri : String)
    (reqH respH : List (String × String)) (content : Value) (outputType : String)
    (raw : List Nat) :
    (300 ≤ c → c < 400 →
      callHTTPActivityResult false c method uri reqH respH content outputType raw =
        .error (.appError "CallHTTP returned 3xx status code" "CallHTTP error" true)) ∧
    (400 ≤ c → c < 500 →
      callHTTPActivityResult false c method uri reqH respH content outputType raw =
        .error (.appError "CallHTTP returned 4xx status code" "CallHTTP error" true)) := by
  constructor
  · intro h1 h2
    unfold callHTTPActivityResult
    rw [if_pos ⟨h1, h2⟩]
  · intro h1 h2
    unfold callHTTPActivityResult
    rw [if_neg (by omega : ¬ (300 ≤ c ∧ c < 400)), if_pos ⟨h1, h2⟩]

/-- C5 witness: status 301 and status 404 at concrete arguments. -/
theorem callHTTP_3xx_4xx_errors_witness :
    callHTTPActivityResult false 301 "GET" "https://example/1" [] [] Value.null "" [] =
      .error (.appError "CallHTTP returned 3xx status code" "CallHTTP error" true) ∧
    callHTTPActivityResult false 404 "GET" "https://example/1" [] [] Value.null "" [] =
      .error (.appError "CallHTTP returned 4xx status code" "CallHTTP error" true) :=
  ⟨(callHTTP_3xx_4xx_errors 301 "GET" "https://example/1" [] [] Value.null "" []).1
      (by decide) (by decide),
   (callHTTP_3xx_4xx_errors 404 "GET" "https://example/1" [] [] Value.null "" []).2
      (by decide) (by decide)⟩

/-- C10: a listen task containing at least one `query` entry performs
no await at all — the `await` flag is cleared, so the completion
predicate and the timeout are never applied — while every entry
(including `signal` and `update` entries and under either completion
predicate) still has its handler registered. -/
theorem listen_query_never_awaits (events : List ListenEvent) (isAll : Bool)
    (hq : ∃ e ∈ events, e.withType = "query")
    (hvalid : ∀ e ∈ events,
      e.withType = "query" ∨ e.withType = "signal" ∨ e.withType = "update") :
    (listenExec events isAll).await = false ∧
    (listenExec events isAll).registered = events.map (fun e => (e.withType, e.id)) := by
  constructor
  · rcases hq with ⟨e, he, hqe⟩
    rw [listenExec, listenFold_await]
    cases hall : events.all (fun x => ¬ x.withType = "query") with
    | false => simp
    | true =>
      rw [List.all_eq_true] at hall
      have hcontra := hall e he
      simp [hqe] at hcontra
  · rw [listenExec, listenFold_registered _ _ _ hvalid]
    simp

/-- C10 witness: a listen task with a query entry and a signal entry
under the `all` predicate returns without awaiting, with both handlers
registered. -/
theorem listen_query_never_awaits_witness :
    (listenExec [⟨"q1", "query"⟩, ⟨"s1", "signal"⟩] true).await = false ∧
    (listenExec [⟨"q1", "query"⟩, ⟨"s1", "signal"⟩] true).registered =
      [("query", "q1"), ("signal", "s1")] :=
  have h := listen_query_never_awaits [⟨"q1", "query"⟩, ⟨"s1", "signal"⟩] true
    (by decide) (by decide)
  ⟨h.1, h.2.trans rfl⟩

/-- C2: the switch runtime evaluates cases in declaration order and the
first case whose `when` is truthy under `CheckIfStatement` (boolean
true, a string equal to `TRUE` case-insensitively, or the string `1`;
a missing `when` counts as true) decides the outcome — its `then`
target is executed as a child workflow unless the target is absent or
terminal, in which case the switch returns without executing anything —
independently of the cases after it, which are never evaluated; and the
Build-time check accepts a case list exactly when at most one case
omits `when`. -/
theorem switch_first_truthy (jq : JqEval) (pre post : List SwitchCase) (c : SwitchCase)
    (s : State) (taskName : String) (cases : List SwitchCase)
    (hpre : ∀ x ∈ pre, CheckIfStatement jq x.whenE s = .ok false)
    (hc : CheckIfStatement jq c.whenE s = .ok true) :
    runSwitch jq (pre ++ c :: post) s =
      .ok (match c.thenD with
        | none => .terminated c.name
        | some d =>
          if flowIsTermination d then .terminated c.name else .execChild c.name d) ∧
    (switchBuildCheck taskName cases 0 false = .ok () ↔
      cases.countP (fun x => x.whenE.isNone) ≤ 1) := by
  constructor
  · rw [runSwitch_append_falsy jq pre (c :: post) s hpre,
      runSwitch_cons_truthy jq c post s hc]
  · simpa using switchBuildCheck_ok_iff taskName cases 0 false

/-- C2 witness: a default case (no `when`) fires and runs its target
as a child workflow; the case after it plays no role; a case list with
a single default passes the Build check. -/
theorem switch_first_truthy_witness :
    runSwitch (fun _ _ _ => .ok (.bool false))
        (SwitchCase.mk "unknown" none (some "raiseUnknown") ::
          [SwitchCase.mk "z" none none]) ⟨[], [], .null, []⟩ =
      .ok (.execChild "unknown" "raiseUnknown") ∧
    switchBuildCheck "switchTask"
        [SwitchCase.mk "electronic" (some "expr") none,
         SwitchCase.mk "unknown" none none] 0 false = .ok () :=
  have h := switch_first_truthy (fun _ _ _ => .ok (.bool false)) []
    [SwitchCase.mk "z" none none] (SwitchCase.mk "unknown" none (some "raiseUnknown"))
    ⟨[], [], .null, []⟩ "switchTask"
    [SwitchCase.mk "electronic" (some "expr") none, SwitchCase.mk "unknown" none none]
    (by intro x hx; simp at hx) rfl
  ⟨h.1.trans rfl, h.2.mpr (by decide)⟩

/-- C6 counterexample: the mixed-case string `tRuE` lower-cases to
`true`, yet Bool coercion rejects it, because `strconv.ParseBool` only
accepts the canonical forms — refuting the claim that any mixture of
upper and lower case is accepted. -/
theorem bool_coercion_mixed_case_counterexample :
    goToLower "tRuE" = "true" ∧
    setAttribute ⟨"Bool", .vstring "tRuE"⟩ "k" =
      .err (.conversionError "error converting string to bool") :=
  ⟨rfl, rfl⟩

/-- C6 (amended): Bool coercion accepts a native bool; a string value
succeeds exactly when it is one of the twelve `strconv.ParseBool`
forms (`1`, `t`, `T`, `TRUE`, `true`, `True` and their false
counterparts), yielding the parsed boolean, and fails with a
conversion error otherwise; in particular `TRUE` produces a boolean
true update. -/
theorem bool_coercion_canonical (k : String) (b : Bool) (s : String) :
    setAttribute ⟨"Bool", .vbool b⟩ k = .ok (.boolSet k b) ∧
    (goParseBool s = some b →
      setAttribute ⟨"Bool", .vstring s⟩ k = .ok (.boolSet k b)) ∧
    (goParseBool s = none →
      setAttribute ⟨"Bool", .vstring s⟩ k =
        .err (.conversionError "error converting string to bool")) ∧
    ((goParseBool s).isSome = true ↔
      (s = "1" ∨ s = "t" ∨ s = "T" ∨ s = "TRUE" ∨ s = "true" ∨ s = "True" ∨
       s = "0" ∨ s = "f" ∨ s = "F" ∨ s = "FALSE" ∨ s = "false" ∨ s = "False")) ∧
    setAttribute ⟨"Bool", .vstring "TRUE"⟩ k = .ok (.boolSet k true) := by
  refine ⟨rfl, ?_, ?_, ?_, rfl⟩
  · intro h
    have hred : setAttribute ⟨"Bool", .vstring s⟩ k =
        newBooleanUpdate ⟨"Bool", .vstring s⟩ k := rfl
    rw [hred]
    simp [newBooleanUpdate, h]
  · intro h
    have hred : setAttribute ⟨"Bool", .vstring s⟩ k =
        newBooleanUpdate ⟨"Bool", .vstring s⟩ k := rfl
    rw [hred]
    simp [newBooleanUpdate, h]
  · unfold goParseBool
    by_cases h1 : s = "1" ∨ s = "t" ∨ s = "T" ∨ s = "TRUE" ∨ s = "true" ∨ s = "True"
    · rw [if_pos h1]
      simp only [Option.isSome_some]
      tauto
    · rw [if_neg h1]
      by_cases h2 : s = "0" ∨ s = "f" ∨ s = "F" ∨ s = "FALSE" ∨ s = "false" ∨ s = "False"
      · rw [if_pos h2]
        simp only [Option.isSome_some]
        tauto
      · rw [if_neg h2]
        simp only [Option.isSome_none]
        tauto

/-- C6 witness: the canonical string `TRUE` coerces to a boolean true
update. -/
theorem bool_coercion_canonical_witness :
    goParseBool "TRUE" = some true ∧
    setAttribute ⟨"Bool", .vstring "TRUE"⟩ "k" = .ok (.boolSet "k" true) :=
  ⟨rfl, (bool_coercion_canonical "k" true "TRUE").2.1 rfl⟩

/-- C4: evaluation at the failing inputs — a `Keyword` or `Text`
attribute with a non-string value and a `KeywordList` attribute with a
non-list value make the coercion panic through an unchecked Go type
assertion instead of returning `ErrInvalidType`, while the sibling
`Int` coercion does return `ErrInvalidType` for a mismatched value. -/
theorem searchAttribute_keyword_text_panic :
    setAttribute ⟨"Keyword", .vint 42⟩ "k" = .runtimePanic ∧
    setAttribute ⟨"Text", .vint 42⟩ "k" = .runtimePanic ∧
    setAttribute ⟨"KeywordList", .vstring "x"⟩ "k" = .runtimePanic ∧
    setAttribute ⟨"Int", .vstringList ["x"]⟩ "k" = .err .invalidType :=
  ⟨rfl, rfl, rfl, rfl⟩

/-- C7: schedule reconciliation is idempotent — a successful run leaves
a store that a second run with the same document and task queue maps to
itself; when the document declares a schedule, exactly one schedule
with the computed identifier remains; when it declares none, no
schedule with that identifier remains. -/
theorem upsertSchedule_idempotent (w : SchedWorkflow) (q sid : String)
    (store store1 : List ScheduleEntry)
    (hid : computeScheduleID w = .ok sid)
    (h : UpsertSchedule w q store = .ok store1) :
    UpsertSchedule w q store1 = .ok store1 ∧
    (w.schedule.isSome →
      (store1.filter (fun s => s.id = sid)).length = 1) ∧
    (w.schedule = none →
      (store1.filter (fun s => s.id = sid)).length = 0) := by
  cases hsch : w.schedule with
  | none =>
    simp only [UpsertSchedule, hid, hsch] at h ⊢
    replace h : store.filter (fun s => s.id ≠ sid) = store1 := by
      simpa using h
    refine ⟨?_, ?_, ?_⟩
    · rw [← h, filter_idem]
    · intro hcontra
      simp at hcontra
    · intro _
      rw [← h, filter_eq_after_filter_ne]
      rfl
  | some sched =>
    simp only [UpsertSchedule, hid, hsch] at h ⊢
    cases hwn : alLookup w.metadata "scheduleWorkflowName" with
    | none => rw [hwn] at h; simp at h
    | some wv =>
      rw [hwn] at h
      cases wv with
      | str wn =>
        cases hspec : buildTemporalScheduleSpec sched with
        | error e => rw [hspec] at h; simp at h
        | ok spec =>
          rw [hspec] at h
          cases hinp : scheduleInputOf w with
          | error e => rw [hinp] at h; simp at h
          | ok input =>
            rw [hinp] at h
            replace h : store.filter (fun s => s.id ≠ sid) ++
                [ScheduleEntry.mk sid spec wn q input] = store1 := by
              simpa using h
            have hfilter1 : store1.filter (fun s => s.id ≠ sid) =
                store.filter (fun s => s.id ≠ sid) := by
              rw [← h, List.filter_append, filter_idem]
              simp
            refine ⟨?_, ?_, ?_⟩
            · show Except.ok (store1.filter (fun s => s.id ≠ sid) ++
                  [ScheduleEntry.mk sid spec wn q input]) = Except.ok store1
              rw [hfilter1, h]
            · intro _
              rw [← h, List.filter_append, filter_eq_after_filter_ne]
              simp
            · intro hcontra
              exact Option.noConfusion hcontra
      | null => simp at h
      | bool b => simp at h
      | num n => simp at h
      | arr l => simp at h
      | obj l => simp at h

/-- Document inputs used to witness the schedule reconciler: workflow
`example` declaring a cron schedule, with the target workflow name in
its metadata. -/
def schedWorkflowSample : SchedWorkflow :=
  ⟨"example", [("scheduleWorkflowName", .str "wf")], some ⟨"0 * * * *", none, none⟩⟩

/-- Starting schedule store used by the witness: one stale schedule
with the computed identifier and one unrelated schedule. -/
def scheduleStoreSample : List ScheduleEntry :=
  [⟨"dsl_example", ⟨[], []⟩, "old", "tq", []⟩,
   ⟨"other", ⟨[], []⟩, "x", "tq", []⟩]

/-- Store produced by one reconciliation of the sample document. -/
def upsertedStoreSample : List ScheduleEntry :=
  [⟨"other", ⟨[], []⟩, "x", "tq", []⟩,
   ⟨"dsl_example", ⟨["0 * * * *"], []⟩, "wf", "tq", []⟩]

/-- C7 witness: reconciling the sample document replaces the stale
schedule; reconciling again is a fixed point, and exactly one schedule
with the computed identifier remains. -/
theorem upsertSchedule_idempotent_witness :
    UpsertSchedule schedWorkflowSample "tq" scheduleStoreSample = .ok upsertedStoreSample ∧
    UpsertSchedule schedWorkflowSample "tq" upsertedStoreSample = .ok upsertedStoreSample ∧
    (upsertedStoreSample.filter (fun s => s.id = "dsl_example")).length = 1 :=
  have h := upsertSchedule_idempotent schedWorkflowSample "tq" "dsl_example"
    scheduleStoreSample upsertedStoreSample rfl rfl
  ⟨rfl, h.1, h.2.1 rfl⟩

/-- State reached by a successful loop iteration, if any: `err` aborts,
`halt` and `next` carry the state the executor continues from. -/
def stepStateOf : StepRes → Option State
  | .err _ => none
  | .halt s => some s
  | .next s _ => some s

/-- C1 (amended): when a task passes its gates and its function
returns successfully with result `v` and state `s1`, the executor's
step always produces a state, namely `s1` with the `AddOutput` export
step applied; when the task declares `export.as` and the result is not
the Go nil value, that state's output maps the stripped key to the
result; when the task declares no `export.as` — or the result is nil —
the export step leaves the output map exactly as the task body left
it. -/
theorem do_export_step (t : ExecTask) (s s1 : State) (v : Value)
    (hrun : t.shouldRun s = .ok true)
    (hvi : t.validateInput s = .ok ())
    (hpm : t.parseMetadata s = .ok ())
    (hf : t.func s = .ok (v, s1)) :
    (∀ s2, stepStateOf (execTask t s) = some s2 → s2 = s1.AddOutput t.exportAs v) ∧
    (∃ s2, stepStateOf (execTask t s) = some s2) ∧
    (∀ e, t.exportAs = some e → v.isNull = false →
      alLookup (s1.AddOutput t.exportAs v).output (goTrimBraces e) = some v) ∧
    ((t.exportAs = none ∨ v.isNull = true) →
      (s1.AddOutput t.exportAs v).output = s1.output) := by
  have hstep : stepStateOf (execTask t s) = some (s1.AddOutput t.exportAs v) := by
    simp only [execTask, hrun, hvi, hpm, hf]
    cases ht : t.thenDir with
    | none => rfl
    | some d =>
      by_cases hterm : flowIsTermination d
      · simp [hterm, stepStateOf]
      · by_cases henum : flowIsEnum d <;> simp [hterm, henum, stepStateOf]
  refine ⟨?_, ⟨_, hstep⟩, ?_, ?_⟩
  · intro s2 hs2
    rw [hstep] at hs2
    exact (Option.some.inj hs2).symm
  · intro e he hv
    simp [State.AddOutput, hv, he, alLookup_alInsert]
  · intro hcase
    rcases hcase with he | hv
    · cases hv : v.isNull <;> simp [State.AddOutput, he, hv]
    · simp [State.AddOutput, hv]

/-- Concrete exporting task used by the C1 witness: it passes all
gates and returns the string `res`, leaving the state unchanged. -/
def exportTaskSample : ExecTask :=
  ⟨"getUser", some "user", none,
    fun _ => .ok true, fun _ => .ok (), fun _ => .ok (),
    fun st => .ok (.str "res", st)⟩

/-- C1 witness: executing the sample exporting task from the empty
state stores its result in the output map under the stripped key. -/
theorem do_export_step_witness :
    alLookup ((State.mk [] [] .null []).AddOutput (some "user") (.str "res")).output
        (goTrimBraces "user") = some (.str "res") ∧
    stepStateOf (execTask exportTaskSample (State.mk [] [] .null [])) =
      some ((State.mk [] [] .null []).AddOutput (some "user") (.str "res")) := by
  have h := do_export_step exportTaskSample ⟨[], [], .null, []⟩ ⟨[], [], .null, []⟩
    (.str "res") rfl rfl rfl rfl
  refine ⟨h.2.2.1 "user" rfl rfl, ?_⟩
  obtain ⟨s2, hs2⟩ := h.2.1
  rw [hs2, h.1 s2 hs2]
  rfl

/-- Concrete exporting task whose function succeeds with the Go nil
result, as the built fork, switch and listen bodies do. -/
def nilResultTaskSample : ExecTask :=
  ⟨"fork1", some "user", none,
    fun _ => .ok true, fun _ => .ok (), fun _ => .ok (),
    fun st => .ok (.null, st)⟩

/-- State holding a previous value under the export key. -/
def prevOutputStateSample : State :=
  ⟨[], [], .null, [("user", .str "old")]⟩

/-- C1 counterexample: a task declaring `export.as` whose function
returns successfully with the Go nil result leaves the output entry at
its previous value, so `state.output[k]` is not the task's result as
the claim requires — the export step is guarded by `output != nil` in
the source. -/
theorem do_export_nil_result_counterexample :
    execTask nilResultTaskSample prevOutputStateSample =
      .next prevOutputStateSample none ∧
    alLookup prevOutputStateSample.output (goTrimBraces "user") = some (.str "old") ∧
    ¬ alLookup prevOutputStateSample.output (goTrimBraces "user") = some Value.null :=
  ⟨rfl, rfl, by
    intro hcontra
    have h2 : some (Value.str "old") = some Value.null := hcontra
    exact Value.noConfusion (Option.some.inj h2)⟩

/-- C3: when a pending `then` jump target is matched by no remaining
task (also covering a backward jump, whose target is behind the
cursor), the sequence executor finishes the loop — skipping every
remaining task — and returns the error naming the missing target,
whose rendered message is the source's format string; moreover the
executor's run is a single forward pass: the instrumented executor
computes the same result and its executed-task trace is a subsequence
of the task names in declaration order, so no task is ever
re-executed. -/
theorem do_missing_target (tasks : List ExecTask) (target : String) (s : State)
    (h : ∀ t ∈ tasks, t.name ≠ target) :
    iterateTasks tasks s (some target) = .error (.targetNotFound target) ∧
    (Err.targetNotFound target).message =
      "next target specified but not found: " ++ target ∧
    (∀ s0 nt, (iterateTasksTrace tasks s0 nt).2 = iterateTasks tasks s0 nt) ∧
    (∀ s0 nt, (iterateTasksTrace tasks s0 nt).1.Sublist
      (tasks.map (fun t => t.name))) :=
  ⟨iterateTasks_missing_target tasks target h s, rfl,
   fun s0 nt => iterateTasksTrace_agrees tasks s0 nt,
   fun s0 nt => iterateTasksTrace_sublist tasks s0 nt⟩

/-- Concrete non-matching task used by the C3 witness. -/
def afterJumpTaskSample : ExecTask :=
  ⟨"two", none, none,
    fun _ => .ok true, fun _ => .ok (), fun _ => .ok (),
    fun st => .ok (.null, st)⟩

/-- C3 witness: a remaining task list that never matches the pending
target `three` makes the executor fail with the error naming it. -/
theorem do_missing_target_witness :
    iterateTasks [afterJumpTaskSample] ⟨[], [], .null, []⟩ (some "three") =
      .error (.targetNotFound "three") :=
  (do_missing_target [afterJumpTaskSample] "three" ⟨[], [], .null, []⟩
    (by
      intro t ht
      rw [List.mem_singleton] at ht
      subst ht
      decide)).1
